import Mathlib

set_option autoImplicit false

/-!
Shallow embedding of the Socket.IO signaling block of `server/src/index.js`
(the `activeRooms` map and the handlers installed in `io.on('connection')`),
together with proofs about its room directory and relay behaviour.

Modelling conventions:
* a JS `Set` of strings is a duplicate-free `List String`: `add` appends when
  the element is absent (JS sets keep insertion order), `delete` filters;
* a JS `Map` keyed by strings is an association list
  `List (String × List String)`: `set` replaces the first binding of the key
  or appends a new one, `get` finds the first binding, `delete` drops the
  bindings of the key — with the unique keys a JS `Map` guarantees these
  coincide with `Map` semantics;
* both membership structures of the source are modelled: the socket.io
  adapter rooms (entered by `socket.join`, left by `socket.leave` or
  automatically on transport close), which determine the recipients of every
  `socket.to(roomId).emit(...)`, and the server's own `activeRooms` map from
  room id to the `Set` of user ids;
* an emitted message is a pair of recipient socket id and message; the
  result of each handler is the new state together with the list of
  emitted messages, in emission order.
-/

namespace BusinessNexus

/-- JS `Set.add` on a set of strings: a no-op when the element is present,
otherwise the element is appended. -/
def setAdd (s : List String) (x : String) : List String :=
  if x ∈ s then s else s ++ [x]

/-- JS `Set.delete`: removes the element when present, otherwise a no-op. -/
def setDelete (s : List String) (x : String) : List String :=
  s.filter (fun y => y ≠ x)

/-- JS `Map.get` on a string-keyed map of string sets (`none` = `undefined`). -/
def mapGet : List (String × List String) → String → Option (List String)
  | [], _ => none
  | p :: rest, k => if p.1 = k then some p.2 else mapGet rest k

/-- JS `Map.set`: replaces the (unique) binding of the key, or appends a new
binding at the end. -/
def mapSet : List (String × List String) → String → List String →
    List (String × List String)
  | [], k, v => [(k, v)]
  | p :: rest, k, v => if p.1 = k then (k, v) :: rest else p :: mapSet rest k v

/-- JS `Map.delete`: drops the binding of the key. -/
def mapDelete (m : List (String × List String)) (k : String) :
    List (String × List String) :=
  m.filter (fun p => p.1 ≠ k)

/-- The messages the server emits to clients.  SDP and ICE payloads are opaque
to the relay and modelled as strings.  `offer`, `answer` and `iceCandidate`
carry `socket.id` of the sender and the target user id, exactly as the
server forwards them. -/
inductive Msg where
  | userConnected (userId : String)
  | userDisconnected (userId : String)
  | offer (payload : String) (senderSocket : String) (targetUserId : String)
  | answer (payload : String) (senderSocket : String) (targetUserId : String)
  | iceCandidate (payload : String) (senderSocket : String) (targetUserId : String)
  | userAudioToggled (userId : String) (enabled : Bool)
  | userVideoToggled (userId : String) (enabled : Bool)
deriving DecidableEq, Repr

/-- Server state: the socket.io adapter rooms (socket ids per room id) and the
`activeRooms` map of `server/src/index.js` (user ids per room id). -/
structure ServerState where
  sioRooms : List (String × List String)
  activeRooms : List (String × List String)
deriving DecidableEq, Repr

/-- The sockets currently in an adapter room (empty when the room is absent). -/
def sioMembers (st : ServerState) (roomId : String) : List String :=
  (mapGet st.sioRooms roomId).getD []

/-- Recipients of `socket.to(roomId).emit(...)`: every socket in the adapter
room except the sender. -/
def socketTo (st : ServerState) (sender roomId : String) : List String :=
  (sioMembers st roomId).filter (fun s => s ≠ sender)

/-- `socket.join(roomId)`: adds the socket to the adapter room, creating it
if absent. -/
def sioJoin (st : ServerState) (sid roomId : String) : ServerState :=
  { st with sioRooms := mapSet st.sioRooms roomId (setAdd (sioMembers st roomId) sid) }

/-- `socket.leave(roomId)`: removes the socket from the adapter room; the
adapter drops a room that becomes empty. -/
def sioLeave (st : ServerState) (sid roomId : String) : ServerState :=
  match mapGet st.sioRooms roomId with
  | none => st
  | some s =>
      let s' := setDelete s sid
      { st with sioRooms :=
          if s' = [] then mapDelete st.sioRooms roomId
          else mapSet st.sioRooms roomId s' }

/-- On transport close the socket.io adapter removes the socket from every
room it is in, dropping rooms that become empty. -/
def sioLeaveAll (st : ServerState) (sid : String) : ServerState :=
  let rooms := (st.sioRooms.map (fun p => (p.1, setDelete p.2 sid))).filter (fun p => p.2 ≠ [])
  { st with sioRooms := rooms }

/-- `socket.on('join-room', (roomId, userId) => ...)`: `socket.join(roomId)`;
create the `activeRooms` entry if absent; add `userId` to it; then
`socket.to(roomId).emit('user-connected', userId)`. -/
def handleJoinRoom (st : ServerState) (sid roomId userId : String) :
    ServerState × List (String × Msg) :=
  let st1 := sioJoin st sid roomId
  let grown := setAdd ((mapGet st1.activeRooms roomId).getD []) userId
  let st2 := { st1 with activeRooms := mapSet st1.activeRooms roomId grown }
  (st2, (socketTo st2 sid roomId).map (fun s => (s, Msg.userConnected userId)))

/-- `socket.on('offer', (roomId, offer, targetUserId) => ...)`:
`socket.to(roomId).emit('offer', offer, socket.id, targetUserId)` — a room
broadcast; the state is untouched. -/
def handleOffer (st : ServerState) (sid roomId payload targetUserId : String) :
    ServerState × List (String × Msg) :=
  (st, (socketTo st sid roomId).map (fun s => (s, Msg.offer payload sid targetUserId)))

/-- `socket.on('answer', ...)`: same broadcast shape as `offer`. -/
def handleAnswer (st : ServerState) (sid roomId payload targetUserId : String) :
    ServerState × List (String × Msg) :=
  (st, (socketTo st sid roomId).map (fun s => (s, Msg.answer payload sid targetUserId)))

/-- `socket.on('ice-candidate', ...)`: same broadcast shape as `offer`. -/
def handleIceCandidate (st : ServerState) (sid roomId payload targetUserId : String) :
    ServerState × List (String × Msg) :=
  (st, (socketTo st sid roomId).map (fun s => (s, Msg.iceCandidate payload sid targetUserId)))

/-- `socket.on('toggle-audio', (roomId, userId, isAudioEnabled) => ...)`:
`socket.to(roomId).emit('user-audio-toggled', userId, isAudioEnabled)`. -/
def handleToggleAudio (st : ServerState) (sid roomId userId : String) (enabled : Bool) :
    ServerState × List (String × Msg) :=
  (st, (socketTo st sid roomId).map (fun s => (s, Msg.userAudioToggled userId enabled)))

/-- `socket.on('toggle-video', ...)`: symmetric to `toggle-audio`. -/
def handleToggleVideo (st : ServerState) (sid roomId userId : String) (enabled : Bool) :
    ServerState × List (String × Msg) :=
  (st, (socketTo st sid roomId).map (fun s => (s, Msg.userVideoToggled userId enabled)))

/-- `socket.on('leave-room', (roomId, userId) => ...)`: `socket.leave(roomId)`;
if `activeRooms` has the room, delete `userId` from its set and delete the
entry when the set becomes empty; then unconditionally
`socket.to(roomId).emit('user-disconnected', userId)`. -/
def handleLeaveRoom (st : ServerState) (sid roomId userId : String) :
    ServerState × List (String × Msg) :=
  let st1 := sioLeave st sid roomId
  let active :=
    match mapGet st1.activeRooms roomId with
    | none => st1.activeRooms
    | some s =>
        let s' := setDelete s userId
        if s' = [] then mapDelete st1.activeRooms roomId
        else mapSet st1.activeRooms roomId s'
  let st2 := { st1 with activeRooms := active }
  (st2, (socketTo st2 sid roomId).map (fun s => (s, Msg.userDisconnected userId)))

/-- The `activeRooms.forEach((participants, roomId) => ...)` body of
`socket.on('disconnect')`: wherever `participants.has(socket.id)`, delete
`socket.id` from the set, emit `user-disconnected(socket.id)` to the room,
and delete the entry when the set becomes empty.  `st1` is the state whose
adapter rooms resolve the `socket.to` broadcasts. -/
def disconnectScan (st1 : ServerState) (sid : String) :
    List (String × List String) → List (String × List String) × List (String × Msg)
  | [] => ([], [])
  | (roomId, participants) :: rest =>
      let tail := disconnectScan st1 sid rest
      if sid ∈ participants then
        let p' := setDelete participants sid
        let here := (socketTo st1 sid roomId).map
          (fun s => (s, Msg.userDisconnected sid))
        ((if p' = [] then tail.1 else (roomId, p') :: tail.1), here ++ tail.2)
      else
        ((roomId, participants) :: tail.1, tail.2)

/-- `socket.on('disconnect')`: socket.io has already removed the socket from
its adapter rooms; the handler then scans `activeRooms` for `socket.id`
(note: *the socket id*, not the user id the socket joined with). -/
def handleDisconnect (st : ServerState) (sid : String) :
    ServerState × List (String × Msg) :=
  let st1 := sioLeaveAll st sid
  let scanned := disconnectScan st1 sid st1.activeRooms
  ({ st1 with activeRooms := scanned.1 }, scanned.2)

/-- Inbound events driving the server. -/
inductive Event where
  | joinRoom (sid roomId userId : String)
  | offer (sid roomId payload targetUserId : String)
  | answer (sid roomId payload targetUserId : String)
  | iceCandidate (sid roomId payload targetUserId : String)
  | toggleAudio (sid roomId userId : String) (enabled : Bool)
  | toggleVideo (sid roomId userId : String) (enabled : Bool)
  | leaveRoom (sid roomId userId : String)
  | disconnect (sid : String)
deriving DecidableEq, Repr

/-- One dispatcher step: the handler the event selects. -/
def step (st : ServerState) : Event → ServerState × List (String × Msg)
  | .joinRoom sid r u => handleJoinRoom st sid r u
  | .offer sid r p t => handleOffer st sid r p t
  | .answer sid r p t => handleAnswer st sid r p t
  | .iceCandidate sid r p t => handleIceCandidate st sid r p t
  | .toggleAudio sid r u b => handleToggleAudio st sid r u b
  | .toggleVideo sid r u b => handleToggleVideo st sid r u b
  | .leaveRoom sid r u => handleLeaveRoom st sid r u
  | .disconnect sid => handleDisconnect st sid

/-- The server starts with no adapter rooms and an empty `activeRooms` map. -/
def initState : ServerState :=
  ⟨[], []⟩

/-- Run a sequence of events from a given state. -/
def runFrom (st : ServerState) : List Event → ServerState
  | [] => st
  | e :: es => runFrom (step st e).1 es

/-- Run a sequence of events from the initial state. -/
def run (es : List Event) : ServerState :=
  runFrom initState es

/-- The membership set a room currently has in `activeRooms` (empty when the
room is absent from the directory). -/
def roomMembers (st : ServerState) (roomId : String) : List String :=
  (mapGet st.activeRooms roomId).getD []

/-- `activeRooms.has(roomId)`. -/
def hasRoom (st : ServerState) (roomId : String) : Bool :=
  (mapGet st.activeRooms roomId).isSome

/-- Recognises the two directory-mutating client events of claim C3. -/
def isJoinLeave : Event → Bool
  | .joinRoom _ _ _ => true
  | .leaveRoom _ _ _ => true
  | _ => false

/-- One step of the reference predicate "has joined the room and not
subsequently left it": a join of the pair sets it, a leave clears it, and
every other event leaves it alone. -/
def jnlStep (roomId userId : String) (b : Bool) : Event → Bool
  | .joinRoom _ r u => if r = roomId ∧ u = userId then true else b
  | .leaveRoom _ r u => if r = roomId ∧ u = userId then false else b
  | _ => b

/-- `userId` has joined `roomId` somewhere in the event sequence and has not
subsequently left it. -/
def joinedNotLeft (es : List Event) (roomId userId : String) : Bool :=
  es.foldl (fun b e => jnlStep roomId userId b e) false

/-- Client discipline for claim C5: a join of user `u` into room `r` is only
issued while `u` is a member of no room other than `r`. -/
def joinAllowed (st : ServerState) : Event → Bool
  | .joinRoom _ r u => st.activeRooms.all (fun p => decide (u ∈ p.2 → p.1 = r))
  | _ => true

/-- Every join in the event sequence satisfies `joinAllowed` at the state it
is applied to. -/
def disciplinedFrom (st : ServerState) : List Event → Bool
  | [] => true
  | e :: es => joinAllowed st e && disciplinedFrom (step st e).1 es

/-- `disciplinedFrom` starting at the initial state. -/
def disciplined (es : List Event) : Bool :=
  disciplinedFrom initState es

/-- Every entry of the `activeRooms` map has a non-empty member set. -/
def activeEntriesNonempty (st : ServerState) : Prop :=
  ∀ p ∈ st.activeRooms, p.2 ≠ []

/-- Any two `activeRooms` entries whose sets contain `u` are entries of the
same room. -/
def inOneRoomOnly (st : ServerState) (u : String) : Prop :=
  ∀ p ∈ st.activeRooms, ∀ q ∈ st.activeRooms, u ∈ p.2 → u ∈ q.2 → p.1 = q.1

theorem mem_setAdd (s : List String) (x y : String) :
    y ∈ setAdd s x ↔ y = x ∨ y ∈ s := by
  by_cases h : x ∈ s
  · simp only [setAdd, if_pos h]
    constructor
    · exact fun hy => Or.inr hy
    · rintro (rfl | hy)
      · exact h
      · exact hy
  · simp [setAdd, if_neg h, List.mem_append, or_comm]

theorem setAdd_of_mem (s : List String) (x : String) (h : x ∈ s) :
    setAdd s x = s := by
  simp [setAdd, if_pos h]

theorem setAdd_ne_nil (s : List String) (x : String) : setAdd s x ≠ [] := by
  by_cases h : x ∈ s
  · simp only [setAdd, if_pos h]
    intro hnil
    rw [hnil] at h
    exact absurd h (List.not_mem_nil x)
  · simp [setAdd, if_neg h]

theorem mem_setDelete (s : List String) (x y : String) :
    y ∈ setDelete s x ↔ y ∈ s ∧ y ≠ x := by
  simp [setDelete, List.mem_filter]

theorem setDelete_of_not_mem (s : List String) (x : String) (h : x ∉ s) :
    setDelete s x = s := by
  apply List.filter_eq_self.mpr
  intro y hy
  simp only [decide_eq_true_eq]
  rintro rfl
  exact h hy

theorem filter_setAdd (s : List String) (x : String) :
    (setAdd s x).filter (fun y => y ≠ x) = s.filter (fun y => y ≠ x) := by
  by_cases h : x ∈ s
  · simp [setAdd, if_pos h]
  · simp [setAdd, if_neg h, List.filter_append]

theorem mapGet_mapSet_self (m : List (String × List String)) (k : String)
    (v : List String) : mapGet (mapSet m k v) k = some v := by
  induction m with
  | nil => simp [mapGet, mapSet]
  | cons p rest ih =>
      by_cases h : p.1 = k
      · simp [mapSet, if_pos h, mapGet]
      · simp [mapSet, if_neg h, mapGet, ih, h]

theorem mapGet_mapSet_ne (m : List (String × List String)) (k k' : String)
    (v : List String) (h : k ≠ k') : mapGet (mapSet m k v) k' = mapGet m k' := by
  induction m with
  | nil => simp [mapGet, mapSet, h]
  | cons p rest ih =>
      by_cases hp : p.1 = k
      · subst hp
        simp [mapSet, mapGet, h]
      · simp only [mapSet, if_neg hp, mapGet]
        by_cases hp' : p.1 = k'
        · simp [hp']
        · simp [hp', ih]

theorem mapGet_mapDelete_self (m : List (String × List String)) (k : String) :
    mapGet (mapDelete m k) k = none := by
  induction m with
  | nil => simp [mapGet, mapDelete]
  | cons p rest ih =>
      by_cases h : p.1 = k
      · simpa [mapDelete, h] using ih
      · simpa [mapDelete, List.filter_cons, h, mapGet] using ih

theorem mapGet_mapDelete_ne (m : List (String × List String)) (k k' : String)
    (h : k ≠ k') : mapGet (mapDelete m k) k' = mapGet m k' := by
  induction m with
  | nil => simp [mapGet, mapDelete]
  | cons p rest ih =>
      by_cases hp : p.1 = k
      · rw [show mapDelete (p :: rest) k = mapDelete rest k by
              simp [mapDelete, List.filter_cons, hp], ih]
        have : p.1 ≠ k' := by rw [hp]; exact h
        simp [mapGet, this]
      · rw [show mapDelete (p :: rest) k = p :: mapDelete rest k by
              simp [mapDelete, List.filter_cons, hp]]
        by_cases hp' : p.1 = k'
        · simp [mapGet, hp']
        · simp [mapGet, hp', ih]

theorem mapSet_get_self (m : List (String × List String)) (k : String)
    (v : List String) (h : mapGet m k = some v) : mapSet m k v = m := by
  induction m with
  | nil => simp [mapGet] at h
  | cons p rest ih =>
      by_cases hp : p.1 = k
      · simp only [mapGet, if_pos hp] at h
        obtain rfl : p.2 = v := by injection h
        simp only [mapSet, if_pos hp]
        rw [show (k, p.2) = p from by
              rw [← hp]]
      · simp only [mapGet, if_neg hp] at h
        simp [mapSet, if_neg hp, ih h]

theorem mapGet_mem (m : List (String × List String)) (k : String)
    (v : List String) (h : mapGet m k = some v) : (k, v) ∈ m := by
  induction m with
  | nil => simp [mapGet] at h
  | cons p rest ih =>
      by_cases hp : p.1 = k
      · simp only [mapGet, if_pos hp] at h
        obtain rfl : p.2 = v := by injection h
        rw [← hp]
        exact List.mem_cons_self _ _
      · simp only [mapGet, if_neg hp] at h
        exact List.mem_cons_of_mem _ (ih h)

theorem mem_mapSet (m : List (String × List String)) (k : String)
    (v : List String) (p : String × List String) (h : p ∈ mapSet m k v) :
    p = (k, v) ∨ p ∈ m := by
  induction m with
  | nil =>
      simp only [mapSet, List.mem_singleton] at h
      exact Or.inl h
  | cons q rest ih =>
      by_cases hq : q.1 = k
      · simp only [mapSet, if_pos hq, List.mem_cons] at h
        rcases h with h | h
        · exact Or.inl h
        · exact Or.inr (List.mem_cons_of_mem _ h)
      · simp only [mapSet, if_neg hq, List.mem_cons] at h
        rcases h with h | h
        · exact Or.inr (by rw [h]; exact List.mem_cons_self q rest)
        · rcases ih h with h' | h'
          · exact Or.inl h'
          · exact Or.inr (List.mem_cons_of_mem _ h')

theorem mem_mapDelete (m : List (String × List String)) (k : String)
    (p : String × List String) (h : p ∈ mapDelete m k) : p ∈ m :=
  List.mem_of_mem_filter h

theorem setDelete_filter_self (s : List String) (x : String) :
    (setDelete s x).filter (fun y => y ≠ x) = setDelete s x := by
  apply List.filter_eq_self.mpr
  intro y hy
  have h := (mem_setDelete s x y).mp hy
  simp [h.2]

theorem not_mem_setDelete_self (s : List String) (x : String) :
    x ∉ setDelete s x := by
  intro h
  exact ((mem_setDelete s x x).mp h).2 rfl

theorem socketTo_eq_setDelete (st : ServerState) (sender roomId : String) :
    socketTo st sender roomId = setDelete (sioMembers st roomId) sender := rfl

theorem sioJoin_activeRooms (st : ServerState) (sid r : String) :
    (sioJoin st sid r).activeRooms = st.activeRooms := rfl

theorem sioLeave_activeRooms (st : ServerState) (sid r : String) :
    (sioLeave st sid r).activeRooms = st.activeRooms := by
  unfold sioLeave
  cases mapGet st.sioRooms r <;> simp

theorem sioMembers_sioJoin (st : ServerState) (sid r : String) :
    sioMembers (sioJoin st sid r) r = setAdd (sioMembers st r) sid := by
  simp [sioMembers, sioJoin, mapGet_mapSet_self]

theorem socketTo_sioJoin (st : ServerState) (sid r : String) :
    socketTo (sioJoin st sid r) sid r = (sioMembers st r).filter (fun y => y ≠ sid) := by
  rw [socketTo, sioMembers_sioJoin, filter_setAdd]

theorem socketTo_sioLeave (st : ServerState) (sid r : String) :
    socketTo (sioLeave st sid r) sid r = setDelete (sioMembers st r) sid := by
  rw [socketTo_eq_setDelete]
  unfold sioLeave
  cases hg : mapGet st.sioRooms r with
  | none => rfl
  | some s =>
      have h1 : sioMembers st r = s := by simp [sioMembers, hg]
      dsimp only
      by_cases hnil : setDelete s sid = []
      · rw [if_pos hnil]
        have h2 : sioMembers { st with sioRooms := mapDelete st.sioRooms r } r = [] := by
          simp [sioMembers, mapGet_mapDelete_self]
        rw [h2, h1, hnil]
        rfl
      · rw [if_neg hnil]
        have h2 : sioMembers
            { st with sioRooms := mapSet st.sioRooms r (setDelete s sid) } r
              = setDelete s sid := by
          simp [sioMembers, mapGet_mapSet_self]
        rw [h2, h1]
        exact setDelete_filter_self s sid

theorem not_mem_sioMembers_sioLeave (st : ServerState) (sid r : String) :
    sid ∉ sioMembers (sioLeave st sid r) r := by
  unfold sioLeave
  cases hg : mapGet st.sioRooms r with
  | none => simp [sioMembers, hg]
  | some s =>
      dsimp only
      by_cases hnil : setDelete s sid = []
      · rw [if_pos hnil]
        simp [sioMembers, mapGet_mapDelete_self]
      · rw [if_neg hnil]
        have h2 : sioMembers
            { st with sioRooms := mapSet st.sioRooms r (setDelete s sid) } r
              = setDelete s sid := by
          simp [sioMembers, mapGet_mapSet_self]
        rw [h2]
        exact not_mem_setDelete_self s sid

theorem mem_broadcast (l : List String) (sid : String) (msg : Msg) (s : String) :
    (s, msg) ∈ (l.filter (fun y => y ≠ sid)).map (fun y => (y, msg)) ↔
      s ∈ l ∧ s ≠ sid := by
  simp [List.mem_map, List.mem_filter]

theorem sender_not_in_broadcast (l : List String) (sid : String) (msg m : Msg) :
    (sid, m) ∉ (l.filter (fun y => y ≠ sid)).map (fun y => (y, msg)) := by
  simp only [List.mem_map, List.mem_filter, decide_eq_true_eq]
  rintro ⟨a, ⟨_, hne⟩, hEq⟩
  injection hEq with h1 _
  exact hne h1

theorem handleJoinRoom_fst_activeRooms (st : ServerState) (sid r u : String) :
    (handleJoinRoom st sid r u).1.activeRooms =
      mapSet st.activeRooms r (setAdd ((mapGet st.activeRooms r).getD []) u) := rfl

theorem handleJoinRoom_emits (st : ServerState) (sid r u : String) :
    (handleJoinRoom st sid r u).2 =
      ((sioMembers st r).filter (fun y => y ≠ sid)).map
        (fun s => (s, Msg.userConnected u)) := by
  have h : (handleJoinRoom st sid r u).2 =
      (socketTo (sioJoin st sid r) sid r).map (fun s => (s, Msg.userConnected u)) := rfl
  rw [h, socketTo_sioJoin]

theorem handleLeaveRoom_fst_activeRooms (st : ServerState) (sid r u : String) :
    (handleLeaveRoom st sid r u).1.activeRooms =
      (match mapGet st.activeRooms r with
       | none => st.activeRooms
       | some s =>
           if setDelete s u = [] then mapDelete st.activeRooms r
           else mapSet st.activeRooms r (setDelete s u)) := by
  show (match mapGet (sioLeave st sid r).activeRooms r with
        | none => (sioLeave st sid r).activeRooms
        | some s =>
            if setDelete s u = [] then mapDelete (sioLeave st sid r).activeRooms r
            else mapSet (sioLeave st sid r).activeRooms r (setDelete s u)) = _
  rw [sioLeave_activeRooms]

theorem handleLeaveRoom_emits (st : ServerState) (sid r u : String) :
    (handleLeaveRoom st sid r u).2 =
      (setDelete (sioMembers st r) sid).map (fun s => (s, Msg.userDisconnected u)) := by
  have h : (handleLeaveRoom st sid r u).2 =
      (socketTo (sioLeave st sid r) sid r).map (fun s => (s, Msg.userDisconnected u)) := rfl
  rw [h, socketTo_sioLeave]

theorem roomMembers_handleJoinRoom (st : ServerState) (sid r u roomId : String) :
    roomMembers (handleJoinRoom st sid r u).1 roomId =
      if r = roomId then setAdd (roomMembers st r) u else roomMembers st roomId := by
  unfold roomMembers
  rw [handleJoinRoom_fst_activeRooms]
  by_cases hr : r = roomId
  · subst hr
    rw [mapGet_mapSet_self, if_pos rfl]
    rfl
  · rw [mapGet_mapSet_ne _ _ _ _ hr, if_neg hr]

theorem roomMembers_handleLeaveRoom (st : ServerState) (sid r u roomId : String) :
    roomMembers (handleLeaveRoom st sid r u).1 roomId =
      if r = roomId then setDelete (roomMembers st r) u else roomMembers st roomId := by
  unfold roomMembers
  rw [handleLeaveRoom_fst_activeRooms]
  cases hg : mapGet st.activeRooms r with
  | none =>
      by_cases hr : r = roomId
      · subst hr
        rw [hg, if_pos rfl]
        simp [hg, setDelete]
      · rw [if_neg hr]
  | some s =>
      dsimp only
      by_cases hnil : setDelete s u = []
      · rw [if_pos hnil]
        by_cases hr : r = roomId
        · subst hr
          rw [mapGet_mapDelete_self, if_pos rfl]
          simp only [Option.getD_none, Option.getD_some]
          exact hnil.symm
        · rw [mapGet_mapDelete_ne _ _ _ hr, if_neg hr]
      · rw [if_neg hnil]
        by_cases hr : r = roomId
        · subst hr
          rw [mapGet_mapSet_self, if_pos rfl]
          simp only [Option.getD_some]
        · rw [mapGet_mapSet_ne _ _ _ _ hr, if_neg hr]

theorem runFrom_membership (roomId userId : String) (es : List Event) :
    ∀ (st : ServerState) (b : Bool),
      es.all isJoinLeave = true →
      ((userId ∈ roomMembers st roomId) ↔ b = true) →
      ((userId ∈ roomMembers (runFrom st es) roomId) ↔
        es.foldl (fun b' e => jnlStep roomId userId b' e) b = true) := by
  induction es with
  | nil =>
      intro st b _ hb
      simpa [runFrom] using hb
  | cons e es ih =>
      intro st b hall hb
      simp only [List.all_cons, Bool.and_eq_true] at hall
      rw [List.foldl_cons]
      show (userId ∈ roomMembers (runFrom (step st e).1 es) roomId) ↔ _
      apply ih (step st e).1 (jnlStep roomId userId b e) hall.2
      cases e with
      | joinRoom sid r u =>
          have hstep : (step st (Event.joinRoom sid r u)).1 = (handleJoinRoom st sid r u).1 := rfl
          rw [hstep, roomMembers_handleJoinRoom]
          by_cases hr : r = roomId
          · subst hr
            rw [if_pos rfl, mem_setAdd]
            by_cases hu : u = userId
            · subst hu
              simp [jnlStep]
            · simp [jnlStep, hu, Ne.symm hu, hb]
          · rw [if_neg hr]
            simp [jnlStep, hr, hb]
      | leaveRoom sid r u =>
          have hstep : (step st (Event.leaveRoom sid r u)).1 = (handleLeaveRoom st sid r u).1 := rfl
          rw [hstep, roomMembers_handleLeaveRoom]
          by_cases hr : r = roomId
          · subst hr
            rw [if_pos rfl, mem_setDelete]
            by_cases hu : u = userId
            · subst hu
              simp [jnlStep]
            · simp [jnlStep, hu, Ne.symm hu, hb]
          · rw [if_neg hr]
            simp [jnlStep, hr, hb]
      | offer sid r p t => exact Bool.noConfusion hall.1
      | answer sid r p t => exact Bool.noConfusion hall.1
      | iceCandidate sid r p t => exact Bool.noConfusion hall.1
      | toggleAudio sid r u en => exact Bool.noConfusion hall.1
      | toggleVideo sid r u en => exact Bool.noConfusion hall.1
      | disconnect sid => exact Bool.noConfusion hall.1

theorem mapSet_nonempty (m : List (String × List String)) (k : String)
    (v : List String) (hm : ∀ p ∈ m, p.2 ≠ []) (hv : v ≠ []) :
    ∀ p ∈ mapSet m k v, p.2 ≠ [] := by
  intro p hp
  rcases mem_mapSet m k v p hp with h | h
  · rw [h]
    exact hv
  · exact hm p h

theorem disconnectScan_cons (st1 : ServerState) (sid roomId : String)
    (parts : List String) (rest : List (String × List String)) :
    disconnectScan st1 sid ((roomId, parts) :: rest) =
      if sid ∈ parts then
        ((if setDelete parts sid = [] then (disconnectScan st1 sid rest).1
          else (roomId, setDelete parts sid) :: (disconnectScan st1 sid rest).1),
         ((socketTo st1 sid roomId).map (fun s => (s, Msg.userDisconnected sid)))
           ++ (disconnectScan st1 sid rest).2)
      else ((roomId, parts) :: (disconnectScan st1 sid rest).1,
            (disconnectScan st1 sid rest).2) := rfl

theorem mem_disconnectScan (st1 : ServerState) (sid : String)
    (m : List (String × List String)) :
    ∀ p ∈ (disconnectScan st1 sid m).1,
      p ∈ m ∨ ∃ q ∈ m, q.1 = p.1 ∧ p.2 = setDelete q.2 sid ∧ p.2 ≠ [] := by
  induction m with
  | nil =>
      intro p hp
      simp [disconnectScan] at hp
  | cons q rest ih =>
      obtain ⟨roomId, parts⟩ := q
      intro p hp
      rw [disconnectScan_cons] at hp
      by_cases hs : sid ∈ parts
      · rw [if_pos hs] at hp
        by_cases hnil : setDelete parts sid = []
        · rw [if_pos hnil] at hp
          rcases ih p hp with h | ⟨w, hw, hk⟩
          · exact Or.inl (List.mem_cons_of_mem _ h)
          · exact Or.inr ⟨w, List.mem_cons_of_mem _ hw, hk⟩
        · rw [if_neg hnil] at hp
          rcases List.mem_cons.mp hp with h | h
          · refine Or.inr ⟨(roomId, parts), List.mem_cons_self _ _, ?_, ?_, ?_⟩
            · rw [h]
            · rw [h]
            · rw [h]
              exact hnil
          · rcases ih p h with h' | ⟨w, hw, hk⟩
            · exact Or.inl (List.mem_cons_of_mem _ h')
            · exact Or.inr ⟨w, List.mem_cons_of_mem _ hw, hk⟩
      · rw [if_neg hs] at hp
        rcases List.mem_cons.mp hp with h | h
        · exact Or.inl (by rw [h]; exact List.mem_cons_self _ _)
        · rcases ih p h with h' | ⟨w, hw, hk⟩
          · exact Or.inl (List.mem_cons_of_mem _ h')
          · exact Or.inr ⟨w, List.mem_cons_of_mem _ hw, hk⟩

theorem step_activeNonempty (st : ServerState) (e : Event)
    (h : activeEntriesNonempty st) : activeEntriesNonempty (step st e).1 := by
  cases e with
  | joinRoom sid r u =>
      intro p hp
      rw [show (step st (Event.joinRoom sid r u)).1.activeRooms =
            mapSet st.activeRooms r
              (setAdd ((mapGet st.activeRooms r).getD []) u) from rfl] at hp
      exact mapSet_nonempty _ _ _ h (setAdd_ne_nil _ _) p hp
  | offer sid r p t => exact h
  | answer sid r p t => exact h
  | iceCandidate sid r p t => exact h
  | toggleAudio sid r u en => exact h
  | toggleVideo sid r u en => exact h
  | leaveRoom sid r u =>
      intro p hp
      rw [show (step st (Event.leaveRoom sid r u)).1 =
            (handleLeaveRoom st sid r u).1 from rfl,
          handleLeaveRoom_fst_activeRooms] at hp
      cases hget : mapGet st.activeRooms r with
      | none =>
          rw [hget] at hp
          exact h p hp
      | some s =>
          rw [hget] at hp
          dsimp only at hp
          by_cases hnil : setDelete s u = []
          · rw [if_pos hnil] at hp
            exact h p (mem_mapDelete _ _ _ hp)
          · rw [if_neg hnil] at hp
            rcases mem_mapSet _ _ _ _ hp with h1 | h1
            · rw [h1]
              exact hnil
            · exact h p h1
  | disconnect sid =>
      intro p hp
      rw [show (step st (Event.disconnect sid)).1.activeRooms =
            (disconnectScan (sioLeaveAll st sid) sid st.activeRooms).1 from rfl] at hp
      rcases mem_disconnectScan _ _ _ p hp with h1 | ⟨_, _, _, _, hne⟩
      · exact h p h1
      · exact hne

theorem runFrom_activeNonempty (es : List Event) :
    ∀ st : ServerState, activeEntriesNonempty st →
      activeEntriesNonempty (runFrom st es) := by
  induction es with
  | nil =>
      intro st h
      exact h
  | cons e es ih =>
      intro st h
      exact ih _ (step_activeNonempty st e h)

theorem run_activeNonempty (es : List Event) : activeEntriesNonempty (run es) := by
  apply runFrom_activeNonempty
  intro p hp
  simp [initState] at hp

theorem step_inOneRoomOnly (st : ServerState) (e : Event) (u : String)
    (hg : joinAllowed st e = true) (h : inOneRoomOnly st u) :
    inOneRoomOnly (step st e).1 u := by
  cases e with
  | joinRoom sid r v =>
      unfold joinAllowed at hg
      have hguard : ∀ w ∈ st.activeRooms, v ∈ w.2 → w.1 = r := by
        intro w hw hvw
        exact (of_decide_eq_true (List.all_eq_true.mp hg w hw)) hvw
      intro p hp q hq hup huq
      rw [show (step st (Event.joinRoom sid r v)).1.activeRooms =
            mapSet st.activeRooms r
              (setAdd ((mapGet st.activeRooms r).getD []) v) from rfl] at hp hq
      by_cases huv : u = v
      · subst huv
        have key : ∀ w, w ∈ mapSet st.activeRooms r
              (setAdd ((mapGet st.activeRooms r).getD []) u) →
            u ∈ w.2 → w.1 = r := by
          intro w hw huw
          rcases mem_mapSet _ _ _ _ hw with h1 | h1
          · rw [h1]
          · exact hguard w h1 huw
        rw [key p hp hup, key q hq huq]
      · have old : ∀ w, w ∈ mapSet st.activeRooms r
              (setAdd ((mapGet st.activeRooms r).getD []) v) →
            u ∈ w.2 → ∃ w' ∈ st.activeRooms, w'.1 = w.1 ∧ u ∈ w'.2 := by
          intro w hw huw
          rcases mem_mapSet _ _ _ _ hw with h1 | h1
          · subst h1
            have hu0 : u ∈ (mapGet st.activeRooms r).getD [] := by
              rcases (mem_setAdd _ _ _).mp huw with h2 | h2
              · exact absurd h2 huv
              · exact h2
            cases hget : mapGet st.activeRooms r with
            | none =>
                rw [hget] at hu0
                simp at hu0
            | some s0 =>
                rw [hget] at hu0
                exact ⟨(r, s0), mapGet_mem _ _ _ hget, rfl, by simpa using hu0⟩
          · exact ⟨w, h1, rfl, huw⟩
        obtain ⟨p', hp', hpk, hpu⟩ := old p hp hup
        obtain ⟨q', hq', hqk, hqu⟩ := old q hq huq
        rw [← hpk, ← hqk]
        exact h p' hp' q' hq' hpu hqu
  | offer sid r p t => exact h
  | answer sid r p t => exact h
  | iceCandidate sid r p t => exact h
  | toggleAudio sid r v en => exact h
  | toggleVideo sid r v en => exact h
  | leaveRoom sid r v =>
      intro p hp q hq hup huq
      rw [show (step st (Event.leaveRoom sid r v)).1 =
            (handleLeaveRoom st sid r v).1 from rfl,
          handleLeaveRoom_fst_activeRooms] at hp hq
      cases hget : mapGet st.activeRooms r with
      | none =>
          rw [hget] at hp hq
          exact h p hp q hq hup huq
      | some s =>
          rw [hget] at hp hq
          dsimp only at hp hq
          have old : ∀ w, w ∈ (if setDelete s v = [] then mapDelete st.activeRooms r
                else mapSet st.activeRooms r (setDelete s v)) →
              u ∈ w.2 → ∃ w' ∈ st.activeRooms, w'.1 = w.1 ∧ u ∈ w'.2 := by
            intro w hw huw
            by_cases hnil : setDelete s v = []
            · rw [if_pos hnil] at hw
              exact ⟨w, mem_mapDelete _ _ _ hw, rfl, huw⟩
            · rw [if_neg hnil] at hw
              rcases mem_mapSet _ _ _ _ hw with h1 | h1
              · subst h1
                refine ⟨(r, s), mapGet_mem _ _ _ hget, rfl, ?_⟩
                exact ((mem_setDelete _ _ _).mp huw).1
              · exact ⟨w, h1, rfl, huw⟩
          obtain ⟨p', hp', hpk, hpu⟩ := old p hp hup
          obtain ⟨q', hq', hqk, hqu⟩ := old q hq huq
          rw [← hpk, ← hqk]
          exact h p' hp' q' hq' hpu hqu
  | disconnect sid =>
      intro p hp q hq hup huq
      rw [show (step st (Event.disconnect sid)).1.activeRooms =
            (disconnectScan (sioLeaveAll st sid) sid st.activeRooms).1 from rfl] at hp hq
      have old : ∀ w, w ∈ (disconnectScan (sioLeaveAll st sid) sid st.activeRooms).1 →
          u ∈ w.2 → ∃ w' ∈ st.activeRooms, w'.1 = w.1 ∧ u ∈ w'.2 := by
        intro w hw huw
        rcases mem_disconnectScan _ _ _ w hw with h1 | ⟨w', hw', hk, hdel, _⟩
        · exact ⟨w, h1, rfl, huw⟩
        · refine ⟨w', hw', hk, ?_⟩
          rw [hdel] at huw
          exact ((mem_setDelete _ _ _).mp huw).1
      obtain ⟨p', hp', hpk, hpu⟩ := old p hp hup
      obtain ⟨q', hq', hqk, hqu⟩ := old q hq huq
      rw [← hpk, ← hqk]
      exact h p' hp' q' hq' hpu hqu

theorem disciplinedFrom_inOneRoomOnly (es : List Event) :
    ∀ (st : ServerState) (u : String),
      disciplinedFrom st es = true → inOneRoomOnly st u →
      inOneRoomOnly (runFrom st es) u := by
  induction es with
  | nil =>
      intro st u _ h
      exact h
  | cons e es ih =>
      intro st u hd h
      simp only [disciplinedFrom, Bool.and_eq_true] at hd
      exact ih _ u hd.2 (step_inOneRoomOnly st e u hd.1 h)

/-- Claim C1, counterexample: the claim says an Offer naming a target that is
not a member of the room is delivered to no connection.  In the code, with
sockets s1, s2, s3 in room r, an offer from s1 targeting the non-member "D"
is still delivered — to s2 and s3 — because the handler broadcasts with
`socket.to(roomId)` and never checks the target. -/
theorem offer_to_absent_target_delivered :
    ("D" ∉ roomMembers (run [Event.joinRoom "s1" "r" "A", Event.joinRoom "s2" "r" "B",
        Event.joinRoom "s3" "r" "C"]) "r") ∧
    (step (run [Event.joinRoom "s1" "r" "A", Event.joinRoom "s2" "r" "B",
        Event.joinRoom "s3" "r" "C"]) (Event.offer "s1" "r" "sdp" "D")).2 =
      [("s2", Msg.offer "sdp" "s1" "D"), ("s3", Msg.offer "sdp" "s1" "D")] := by
  decide

/-- Claim C1, amended: an inbound Offer, Answer or IceCandidate naming room R
and target T is delivered to every socket currently in room R except the
sender — the target identity rides along in the payload and has no effect on
the recipient set — and the state is unchanged, so no error surfaces to the
sender. -/
theorem signaling_broadcast_ignores_target (st : ServerState) (sid r p t : String) :
    ((step st (Event.offer sid r p t)).1 = st ∧
      ∀ s, (s, Msg.offer p sid t) ∈ (step st (Event.offer sid r p t)).2 ↔
        s ∈ sioMembers st r ∧ s ≠ sid) ∧
    ((step st (Event.answer sid r p t)).1 = st ∧
      ∀ s, (s, Msg.answer p sid t) ∈ (step st (Event.answer sid r p t)).2 ↔
        s ∈ sioMembers st r ∧ s ≠ sid) ∧
    ((step st (Event.iceCandidate sid r p t)).1 = st ∧
      ∀ s, (s, Msg.iceCandidate p sid t) ∈ (step st (Event.iceCandidate sid r p t)).2 ↔
        s ∈ sioMembers st r ∧ s ≠ sid) := by
  refine ⟨⟨rfl, ?_⟩, ⟨rfl, ?_⟩, ⟨rfl, ?_⟩⟩ <;> intro s
  · exact mem_broadcast (sioMembers st r) sid (Msg.offer p sid t) s
  · exact mem_broadcast (sioMembers st r) sid (Msg.answer p sid t) s
  · exact mem_broadcast (sioMembers st r) sid (Msg.iceCandidate p sid t) s

/-- Claim C2 (code bug): the spec requires a transport close to act as an
implicit leave of the connection's bound identity.  The handler
`socket.on('disconnect')` tests `participants.has(socket.id)`, but member
sets store the client-supplied user id (the web client sends `user.id`, not
the socket id).  So after socket "s1" joins room "r1" as identity "A"
(alongside "s2" as "B") and then disconnects, the directory is unchanged,
no `user-disconnected` is emitted, and "A" remains a stale member. -/
theorem disconnect_misses_bound_identity :
    (step (run [Event.joinRoom "s1" "r1" "A", Event.joinRoom "s2" "r1" "B"])
        (Event.disconnect "s1")).1.activeRooms =
      (run [Event.joinRoom "s1" "r1" "A", Event.joinRoom "s2" "r1" "B"]).activeRooms ∧
    (step (run [Event.joinRoom "s1" "r1" "A", Event.joinRoom "s2" "r1" "B"])
        (Event.disconnect "s1")).2 = [] ∧
    "A" ∈ roomMembers (step (run [Event.joinRoom "s1" "r1" "A",
        Event.joinRoom "s2" "r1" "B"]) (Event.disconnect "s1")).1 "r1" := by
  decide

/-- Claim C3: for any sequence of join-room/leave-room events applied to the
initially empty directory, an identity is in a room's membership set exactly
when it joined that room and did not subsequently leave it; duplicate joins
and leaves of absent identities therefore cannot change the set. -/
theorem membership_eq_joined_not_left (es : List Event) (roomId userId : String)
    (h : es.all isJoinLeave = true) :
    userId ∈ roomMembers (run es) roomId ↔ joinedNotLeft es roomId userId = true := by
  have h0 : (userId ∈ roomMembers initState roomId) ↔ (false = true) := by
    simp [roomMembers, initState, mapGet]
  exact runFrom_membership roomId userId es initState false h h0

/-- Witness for C3 at a concrete trace containing a duplicate join of "A"
and a leave of the absent "B". -/
theorem membership_eq_joined_not_left_witness :
    ([Event.joinRoom "s1" "r" "A", Event.joinRoom "s2" "r" "A",
      Event.leaveRoom "s1" "r" "B"].all isJoinLeave = true) ∧
    ("A" ∈ roomMembers (run [Event.joinRoom "s1" "r" "A", Event.joinRoom "s2" "r" "A",
        Event.leaveRoom "s1" "r" "B"]) "r" ↔
      joinedNotLeft [Event.joinRoom "s1" "r" "A", Event.joinRoom "s2" "r" "A",
        Event.leaveRoom "s1" "r" "B"] "r" "A" = true) :=
  ⟨by decide,
   membership_eq_joined_not_left
     [Event.joinRoom "s1" "r" "A", Event.joinRoom "s2" "r" "A",
      Event.leaveRoom "s1" "r" "B"] "r" "A" (by decide)⟩

/-- Claim C4: after any event sequence, a room id is present in the
`activeRooms` directory iff its membership set is non-empty — join creates
the entry while adding a member, and leave/disconnect delete an entry the
moment its set empties, so no empty-but-retained room is observable. -/
theorem room_exists_iff_nonempty (es : List Event) (roomId : String) :
    hasRoom (run es) roomId = true ↔ roomMembers (run es) roomId ≠ [] := by
  unfold hasRoom roomMembers
  cases hg : mapGet (run es).activeRooms roomId with
  | none => simp
  | some s =>
      have hne : s ≠ [] := run_activeNonempty es (roomId, s) (mapGet_mem _ _ _ hg)
      simp [hne]

/-- Claim C5, counterexample: the same identity "A" is a member of the two
distinct rooms "r1" and "r2" after joining both without leaving — nothing in
the code removes an identity from its previous room on a new join. -/
theorem identity_in_two_rooms :
    "A" ∈ roomMembers (run [Event.joinRoom "s1" "r1" "A",
        Event.joinRoom "s1" "r2" "A"]) "r1" ∧
    "A" ∈ roomMembers (run [Event.joinRoom "s1" "r1" "A",
        Event.joinRoom "s1" "r2" "A"]) "r2" ∧
    ("r1" : String) ≠ "r2" := by
  decide

/-- Claim C5, amended: the at-most-one-room property holds only under the
client discipline that a join of identity I into room R is issued while I is
a member of no room other than R; under that discipline (hypothesis
`disciplined`), an identity found in two rooms' member sets forces the rooms
to be equal. -/
theorem disciplined_at_most_one_room (es : List Event) (u r1 r2 : String)
    (hd : disciplined es = true)
    (h1 : u ∈ roomMembers (run es) r1) (h2 : u ∈ roomMembers (run es) r2) :
    r1 = r2 := by
  have hinv : inOneRoomOnly (run es) u := by
    apply disciplinedFrom_inOneRoomOnly es initState u hd
    intro p hp q hq _ _
    simp [initState] at hp
  unfold roomMembers at h1 h2
  cases hg1 : mapGet (run es).activeRooms r1 with
  | none =>
      rw [hg1] at h1
      simp at h1
  | some s1 =>
      cases hg2 : mapGet (run es).activeRooms r2 with
      | none =>
          rw [hg2] at h2
          simp at h2
      | some s2 =>
          rw [hg1] at h1
          rw [hg2] at h2
          simp only [Option.getD_some] at h1 h2
          exact hinv (r1, s1) (mapGet_mem _ _ _ hg1) (r2, s2) (mapGet_mem _ _ _ hg2) h1 h2

/-- Witness for the amended C5 at a disciplined trace: "A" leaves "r1"
before joining "r2". -/
theorem disciplined_at_most_one_room_witness :
    disciplined [Event.joinRoom "s1" "r1" "A", Event.leaveRoom "s1" "r1" "A",
      Event.joinRoom "s1" "r2" "A"] = true ∧
    "A" ∈ roomMembers (run [Event.joinRoom "s1" "r1" "A",
      Event.leaveRoom "s1" "r1" "A", Event.joinRoom "s1" "r2" "A"]) "r2" ∧
    ("r2" : String) = "r2" :=
  ⟨by decide, by decide,
   disciplined_at_most_one_room
     [Event.joinRoom "s1" "r1" "A", Event.leaveRoom "s1" "r1" "A",
      Event.joinRoom "s1" "r2" "A"] "A" "r2" "r2" (by decide) (by decide) (by decide)⟩

/-- Claim C6: a `toggle-audio(R, A, enabled)` from A's socket delivers
`user-audio-toggled(A, enabled)` to exactly the sockets in room R other than
the sender, the sender receives nothing, and the state is unchanged;
symmetrically for `toggle-video`. -/
theorem toggle_notifies_others_only (st : ServerState) (sid r u : String) (en : Bool) :
    ((step st (Event.toggleAudio sid r u en)).1 = st ∧
      (∀ s, (s, Msg.userAudioToggled u en) ∈ (step st (Event.toggleAudio sid r u en)).2 ↔
        s ∈ sioMembers st r ∧ s ≠ sid) ∧
      (∀ m, (sid, m) ∉ (step st (Event.toggleAudio sid r u en)).2)) ∧
    ((step st (Event.toggleVideo sid r u en)).1 = st ∧
      (∀ s, (s, Msg.userVideoToggled u en) ∈ (step st (Event.toggleVideo sid r u en)).2 ↔
        s ∈ sioMembers st r ∧ s ≠ sid) ∧
      (∀ m, (sid, m) ∉ (step st (Event.toggleVideo sid r u en)).2)) := by
  refine ⟨⟨rfl, ?_, ?_⟩, ⟨rfl, ?_, ?_⟩⟩
  · intro s
    exact mem_broadcast (sioMembers st r) sid (Msg.userAudioToggled u en) s
  · intro m
    exact sender_not_in_broadcast (sioMembers st r) sid (Msg.userAudioToggled u en) m
  · intro s
    exact mem_broadcast (sioMembers st r) sid (Msg.userVideoToggled u en) s
  · intro m
    exact sender_not_in_broadcast (sioMembers st r) sid (Msg.userVideoToggled u en) m

/-- Claim C7, counterexample: an offer sent by socket "s2", which is not in
room "r", is nevertheless delivered to the room member "s1" — messages from
connections outside the room are not dropped. -/
theorem nonmember_sender_offer_delivered :
    ("s2" ∉ sioMembers (run [Event.joinRoom "s1" "r" "A"]) "r") ∧
    (step (run [Event.joinRoom "s1" "r" "A"]) (Event.offer "s2" "r" "sdp" "A")).2 =
      [("s1", Msg.offer "sdp" "s2" "A")] := by
  decide

/-- Claim C7, amended: a signaling or toggle message from a socket that is
not in the named room is not dropped; it is relayed to every socket of the
room (the sender-exclusion filter removes nothing), and the state is
untouched so no error is raised. -/
theorem nonmember_sender_broadcast (st : ServerState) (sid r p t u : String)
    (en : Bool) (h : sid ∉ sioMembers st r) :
    (step st (Event.offer sid r p t)).2 =
      (sioMembers st r).map (fun s => (s, Msg.offer p sid t)) ∧
    (step st (Event.answer sid r p t)).2 =
      (sioMembers st r).map (fun s => (s, Msg.answer p sid t)) ∧
    (step st (Event.iceCandidate sid r p t)).2 =
      (sioMembers st r).map (fun s => (s, Msg.iceCandidate p sid t)) ∧
    (step st (Event.toggleAudio sid r u en)).2 =
      (sioMembers st r).map (fun s => (s, Msg.userAudioToggled u en)) ∧
    (step st (Event.toggleVideo sid r u en)).2 =
      (sioMembers st r).map (fun s => (s, Msg.userVideoToggled u en)) ∧
    (step st (Event.offer sid r p t)).1 = st := by
  have hfilter : (sioMembers st r).filter (fun y => y ≠ sid) = sioMembers st r := by
    apply List.filter_eq_self.mpr
    intro y hy
    simp only [decide_eq_true_eq]
    rintro rfl
    exact h hy
  refine ⟨?_, ?_, ?_, ?_, ?_, rfl⟩
  · show ((sioMembers st r).filter (fun y => y ≠ sid)).map _ = _
    rw [hfilter]
  · show ((sioMembers st r).filter (fun y => y ≠ sid)).map _ = _
    rw [hfilter]
  · show ((sioMembers st r).filter (fun y => y ≠ sid)).map _ = _
    rw [hfilter]
  · show ((sioMembers st r).filter (fun y => y ≠ sid)).map _ = _
    rw [hfilter]
  · show ((sioMembers st r).filter (fun y => y ≠ sid)).map _ = _
    rw [hfilter]

/-- Witness for the amended C7: the outsider "s2" sends an offer into room
"r" whose only member socket is "s1". -/
theorem nonmember_sender_broadcast_witness :
    ("s2" ∉ sioMembers (ServerState.mk [("r", ["s1"])] [("r", ["A"])]) "r") ∧
    (step (ServerState.mk [("r", ["s1"])] [("r", ["A"])])
        (Event.offer "s2" "r" "sdp" "A")).2 =
      [("s1", Msg.offer "sdp" "s2" "A")] :=
  ⟨by decide,
   ((nonmember_sender_broadcast (ServerState.mk [("r", ["s1"])] [("r", ["A"])])
      "s2" "r" "sdp" "A" "u" true (by decide)).1).trans (by decide)⟩

/-- Claim C8, counterexample: with "A" (socket s1) and "B" (socket s2) in
room "r", a `leave-room(r, "C")` for the non-member "C" leaves the directory
unchanged but still broadcasts `user-disconnected("C")` to s1 — the claim's
"no notification is emitted to members of R" is false. -/
theorem stale_leave_emits_notification :
    ("C" ∉ roomMembers (run [Event.joinRoom "s1" "r" "A",
        Event.joinRoom "s2" "r" "B"]) "r") ∧
    (step (run [Event.joinRoom "s1" "r" "A", Event.joinRoom "s2" "r" "B"])
        (Event.leaveRoom "s2" "r" "C")).2 = [("s1", Msg.userDisconnected "C")] := by
  decide

/-- Claim C8, amended: a `leave-room(R, I)` where I is not a member of R (or
R is absent) leaves the membership directory unchanged and raises no error,
but `user-disconnected(I)` is still broadcast to the sockets of room R other
than the sender, and the sender's socket is removed from the transport
room. -/
theorem stale_leave_directory_noop (es : List Event) (sid r u : String)
    (h : u ∉ roomMembers (run es) r) :
    (step (run es) (Event.leaveRoom sid r u)).1.activeRooms = (run es).activeRooms ∧
    (∀ s, (s, Msg.userDisconnected u) ∈ (step (run es) (Event.leaveRoom sid r u)).2 ↔
      s ∈ sioMembers (run es) r ∧ s ≠ sid) ∧
    sid ∉ sioMembers (step (run es) (Event.leaveRoom sid r u)).1 r := by
  refine ⟨?_, ?_, ?_⟩
  · rw [show (step (run es) (Event.leaveRoom sid r u)).1 =
        (handleLeaveRoom (run es) sid r u).1 from rfl, handleLeaveRoom_fst_activeRooms]
    cases hget : mapGet (run es).activeRooms r with
    | none => rfl
    | some s =>
        dsimp only
        have hus : u ∉ s := by
          intro hin
          apply h
          unfold roomMembers
          rw [hget]
          simpa using hin
        have hdel : setDelete s u = s := setDelete_of_not_mem s u hus
        have hsne : s ≠ [] := run_activeNonempty es (r, s) (mapGet_mem _ _ _ hget)
        rw [hdel, if_neg hsne, mapSet_get_self _ _ _ hget]
  · intro s
    rw [show (step (run es) (Event.leaveRoom sid r u)).2 =
        (handleLeaveRoom (run es) sid r u).2 from rfl, handleLeaveRoom_emits]
    exact mem_broadcast (sioMembers (run es) r) sid (Msg.userDisconnected u) s
  · exact not_mem_sioMembers_sioLeave (run es) sid r

/-- Witness for the amended C8: socket "s2" issues a leave for the
non-member "C" of room "r". -/
theorem stale_leave_directory_noop_witness :
    ("C" ∉ roomMembers (run [Event.joinRoom "s1" "r" "A"]) "r") ∧
    (step (run [Event.joinRoom "s1" "r" "A"]) (Event.leaveRoom "s2" "r" "C")).1.activeRooms
      = (run [Event.joinRoom "s1" "r" "A"]).activeRooms :=
  ⟨by decide,
   (stale_leave_directory_noop [Event.joinRoom "s1" "r" "A"] "s2" "r" "C" (by decide)).1⟩

/-- Claim C9: a `join-room(R, I)` emits `user-connected(I)` to exactly the
sockets that were in room R before the join, excluding the joiner, and the
joining socket itself receives nothing. -/
theorem join_notifies_prior_members (st : ServerState) (sid r u : String) :
    (∀ s, (s, Msg.userConnected u) ∈ (step st (Event.joinRoom sid r u)).2 ↔
      s ∈ sioMembers st r ∧ s ≠ sid) ∧
    (∀ m, (sid, m) ∉ (step st (Event.joinRoom sid r u)).2) := by
  constructor
  · intro s
    rw [show (step st (Event.joinRoom sid r u)).2 =
        (handleJoinRoom st sid r u).2 from rfl, handleJoinRoom_emits]
    exact (mem_broadcast (sioMembers st r) sid (Msg.userConnected u) s)
  · intro m
    rw [show (step st (Event.joinRoom sid r u)).2 =
        (handleJoinRoom st sid r u).2 from rfl, handleJoinRoom_emits]
    exact sender_not_in_broadcast (sioMembers st r) sid (Msg.userConnected u) m

/-- Claim C10: a join of an identity already in the room's member set leaves
the `activeRooms` directory unchanged (`Set.add` of a present element and
`Map.set` of the same set are no-ops), yet `user-connected(I)` is emitted
again to the other sockets of the room — the duplicate notification is not
suppressed. -/
theorem duplicate_join_notifies_again (st : ServerState) (sid r u : String)
    (hu : u ∈ roomMembers st r) :
    (step st (Event.joinRoom sid r u)).1.activeRooms = st.activeRooms ∧
    (∀ s, (s, Msg.userConnected u) ∈ (step st (Event.joinRoom sid r u)).2 ↔
      s ∈ sioMembers st r ∧ s ≠ sid) := by
  constructor
  · rw [show (step st (Event.joinRoom sid r u)).1.activeRooms =
        mapSet st.activeRooms r (setAdd ((mapGet st.activeRooms r).getD []) u) from rfl]
    unfold roomMembers at hu
    cases hget : mapGet st.activeRooms r with
    | none =>
        rw [hget] at hu
        simp at hu
    | some s =>
        rw [hget] at hu
        simp only [Option.getD_some] at hu
        rw [show (some s).getD ([] : List String) = s from rfl,
            setAdd_of_mem s u hu, mapSet_get_self _ _ _ hget]
  · intro s
    rw [show (step st (Event.joinRoom sid r u)).2 =
        (handleJoinRoom st sid r u).2 from rfl, handleJoinRoom_emits]
    exact mem_broadcast (sioMembers st r) sid (Msg.userConnected u) s

/-- Witness for C10: "A" is already a member of room "r" (sockets s1, s2 in
the transport room) and joins again. -/
theorem duplicate_join_notifies_again_witness :
    ("A" ∈ roomMembers (ServerState.mk [("r", ["s1", "s2"])] [("r", ["A", "B"])]) "r") ∧
    (step (ServerState.mk [("r", ["s1", "s2"])] [("r", ["A", "B"])])
        (Event.joinRoom "s1" "r" "A")).1.activeRooms =
      (ServerState.mk [("r", ["s1", "s2"])] [("r", ["A", "B"])]).activeRooms :=
  ⟨by decide,
   (duplicate_join_notifies_again (ServerState.mk [("r", ["s1", "s2"])] [("r", ["A", "B"])])
      "s1" "r" "A" (by decide)).1⟩

end BusinessNexus
